import Mathlib

/-!
Verification of the social-media ingestion/attribution pipeline (`test.py`)
against its natural-language specification.

The pipeline reads per-post CSV exports, normalizes each row into a canonical
post record, backfills metrics from PDF-extracted tables, deduplicates the
record set, and distributes daily follower gains across posts proportionally
to engagement.  The definitions below are a shallow embedding of the Python
source: pandas cell values become the `PyVal` type, a row becomes an
association list, and the per-row arithmetic is translated function by
function.  Components of the later-generation script that are not among the
provided sources (the per-platform attribution engine, the deduplicator, the
numeric-epoch timestamp handling) are modelled from the specification text
and marked as such in their doc comments.
-/

/-- A pandas cell value as observed through `row.get(col, None)` in the
source.  `none` is Python `None` (the column is missing from the file),
`nan` is a float NaN (the column exists but the cell is empty), and the
remaining constructors are ordinary scalar payloads.  Python floats are
idealized as exact rationals. -/
inductive PyVal where
  | none : PyVal
  | nan : PyVal
  | int : Int → PyVal
  | float : ℚ → PyVal
  | str : String → PyVal
deriving DecidableEq

/-- Python truthiness of a cell value: `None` is falsy, NaN is truthy,
numbers are truthy iff nonzero, strings iff nonempty. -/
def PyVal.truthy : PyVal → Bool
  | .none => false
  | .nan => true
  | .int n => decide (n ≠ 0)
  | .float q => decide (q ≠ 0)
  | .str s => decide (s ≠ "")

/-- Python `a or b`: `a` when truthy, else `b`.  Used by the source for
`row.get('shares', None) or row.get('retweets', None)` and for the
link-clicks lookup. -/
def pyOr (a b : PyVal) : PyVal := if a.truthy then a else b

/-- One heterogeneous source row: column name to cell value. -/
abbrev Row := List (String × PyVal)

/-- `row.get(col, None)`: the cell when the column exists, Python `None`
otherwise. -/
def getCol (row : Row) (col : String) : PyVal := (row.lookup col).getD .none

/-- ASCII whitespace, the characters Python `str.strip` removes in these
exports. -/
def isSpaceChar (c : Char) : Bool := c = ' ' ∨ c = '\t' ∨ c = '\n' ∨ c = '\r'

/-- Strip leading and trailing whitespace from a character list. -/
def trimChars (l : List Char) : List Char :=
  ((l.dropWhile isSpaceChar).reverse.dropWhile isSpaceChar).reverse

/-- Python `s.strip()`. -/
def strTrim (s : String) : String := ⟨trimChars s.data⟩

/-- ASCII lowercasing of one character, as Python `str.lower` does on these
ASCII keyword tables. -/
def lowerChar (c : Char) : Char :=
  if 'A' ≤ c ∧ c ≤ 'Z' then Char.ofNat (c.toNat + 32) else c

/-- Python `s.lower()`. -/
def strLower (s : String) : String := ⟨s.data.map lowerChar⟩

/-- Does `pre` start `l`? -/
def isPrefixList : List Char → List Char → Bool
  | [], _ => true
  | _ :: _, [] => false
  | a :: as, b :: bs => a = b && isPrefixList as bs

/-- Does `nee` occur as a contiguous run inside `hay`? -/
def containsSubList (nee : List Char) : List Char → Bool
  | [] => isPrefixList nee []
  | c :: t => isPrefixList nee (c :: t) || containsSubList nee t

/-- Python `nee in hay` on strings. -/
def containsSub (hay nee : String) : Bool := containsSubList nee.data hay.data

/-- Digit-list value, most significant first. -/
def digitsVal (l : List Char) : Int :=
  l.foldl (fun a c => a * 10 + (c.toNat - '0'.toNat : Nat)) 0

/-- Python `int(s)` on a string: optional surrounding whitespace, optional
sign, a nonempty run of decimal digits; anything else raises (here:
`none`). -/
def pyParseInt (s : String) : Option Int :=
  let l := trimChars s.toList
  let sd : Int × List Char :=
    match l with
    | '-' :: rest => (-1, rest)
    | '+' :: rest => (1, rest)
    | rest => (1, rest)
  if sd.2 ≠ [] ∧ sd.2.all Char.isDigit then some (sd.1 * digitsVal sd.2) else none

/-- Python `float(s)` on a string, restricted to the plain decimal literals
that occur in these exports: optional whitespace and sign, digits with an
optional fractional part; at least one digit overall.  Exotic forms
(exponents, `inf`, `nan`) are outside the modelled input space. -/
def pyParseFloat (s : String) : Option ℚ :=
  let l := trimChars s.toList
  let sd : ℚ × List Char :=
    match l with
    | '-' :: rest => (-1, rest)
    | '+' :: rest => (1, rest)
    | rest => (1, rest)
  let ip := sd.2.takeWhile (fun c => c ≠ '.')
  let rest := sd.2.dropWhile (fun c => c ≠ '.')
  match rest with
  | [] =>
    if ip ≠ [] ∧ ip.all Char.isDigit then some (sd.1 * digitsVal ip) else none
  | _ :: fp =>
    if (ip ≠ [] ∨ fp ≠ []) ∧ ip.all Char.isDigit ∧ fp.all Char.isDigit ∧
        fp.all (fun c => c ≠ '.') then
      some (sd.1 * ((digitsVal ip : ℚ) + (digitsVal fp : ℚ) / (10 : ℚ) ^ fp.length))
    else none

/-- Truncation toward zero, as Python `int(float)` does.  On a reduced
fraction this is truncating integer division of the numerator by the
denominator. -/
def pyTrunc (q : ℚ) : Int := q.num.tdiv (q.den : Int)

/-- `to_int` from the source (lines 249-259): `None` and NaN coerce to 0,
ints pass through, floats truncate, strings try `int(...)` then
`int(float(...))`, and on total failure the value is clamped to 0. -/
def to_int : PyVal → Int
  | .none => 0
  | .nan => 0
  | .int n => n
  | .float q => pyTrunc q
  | .str s =>
    match pyParseInt s with
    | some n => n
    | Option.none =>
      match pyParseFloat s with
      | some q => pyTrunc q
      | Option.none => 0

/-- Platform tag as inferred by the source classifier. -/
inductive Platform where
  | FB
  | IG
  | X
  | Unknown
deriving DecidableEq

/-- Platform-specific engagement total, from source lines 269-286.
`shares` falls back to `retweets` through Python `or`; `comments` falls
back to `replies` when the comments column is missing; for FB a present
reactions column replaces the likes count. -/
def engagementsVal (platform : Platform) (row : Row) : Int :=
  let likes := getCol row "likes"
  let comments0 := getCol row "comments"
  let saves := getCol row "saves"
  let reactions := getCol row "reactions"
  let shares := pyOr (getCol row "shares") (getCol row "retweets")
  let replies := getCol row "replies"
  let comments := if comments0 = PyVal.none ∧ replies ≠ PyVal.none then replies else comments0
  let likes_val := to_int likes
  let comments_val := to_int comments
  let shares_val := to_int shares
  let saves_val := to_int saves
  let reactions_val := to_int reactions
  match platform with
  | .FB => (if reactions ≠ PyVal.none then reactions_val else likes_val) + comments_val + shares_val
  | .IG => likes_val + comments_val + shares_val + saves_val
  | .X => likes_val + comments_val + shares_val
  | .Unknown => likes_val + comments_val + shares_val + saves_val

/-- Round half to even, the rounding mode of Python `round` and of pandas
`Series.round`. -/
def roundHalfEven (q : ℚ) : Int :=
  let n := ⌊q⌋
  let r := q - n
  if r < 1 / 2 then n
  else if 1 / 2 < r then n + 1
  else if 2 ∣ n then n else n + 1

/-- Python `round(x, 2)`, idealized over exact rationals. -/
def round2 (q : ℚ) : ℚ := (roundHalfEven (q * 100) : ℚ) / 100

/-- The canonical unified record, one per observed post (the `posts_data`
tuple of source lines 300-317).  Raw metrics stored as `""` in the source
when the coerced value is 0 are modelled as `Option.none`; `engagements`
is always stored (`engagements_val if engagements_val != 0 else 0` is the
identity), and `followsGained` starts at the 0 placeholder. -/
structure PostRecord where
  event : String
  platform : Platform
  postDate : String
  postHour : Nat
  dayOfWeek : String
  postUrl : String
  hashtags : String
  impressions : Option Int
  reach : Option Int
  engagements : Int
  engagementRate : Option ℚ
  linkClicks : Option Int
  followsGained : Int
  sourceNote : String
deriving DecidableEq

/-- Normalization of one source row into a `PostRecord`, from source lines
231-317.  The classification context (event, platform, timestamp fields,
URL, hashtag string, source file name) is computed upstream of the metric
arithmetic and is passed in; the metric coercions, the engagement formula,
the engagement-rate guard and the zero-vs-absent storage rule are
translated directly. -/
def normalizeRow (event : String) (platform : Platform) (postDate : String)
    (postHour : Nat) (dayOfWeek : String) (postUrl : String) (hashtags : String)
    (sourceNote : String) (row : Row) : PostRecord :=
  let impressions_val := to_int (getCol row "impressions")
  let reach_val := to_int (getCol row "reach")
  let engagements_val := engagementsVal platform row
  let engagement_rate_val : Option ℚ :=
    if impressions_val ≠ 0 ∧ 0 < impressions_val then
      some (round2 ((engagements_val : ℚ) / (impressions_val : ℚ) * 100))
    else none
  let link_clicks_val := to_int (pyOr (getCol row "clicks") (getCol row "link_clicks"))
  { event := event
    platform := platform
    postDate := postDate
    postHour := postHour
    dayOfWeek := dayOfWeek
    postUrl := postUrl
    hashtags := hashtags
    impressions := if impressions_val ≠ 0 then some impressions_val else none
    reach := if reach_val ≠ 0 then some reach_val else none
    engagements := engagements_val
    engagementRate := engagement_rate_val
    linkClicks := if link_clicks_val ≠ 0 then some link_clicks_val else none
    followsGained := 0
    sourceNote := sourceNote }

/-- The anomaly-guarded daily delta, from source lines 443-448: a drop whose
magnitude exceeds 90% of the previous total is treated as a data glitch and
clamped to zero.  Python compares against the float `0.9 * prev_value`;
over the integer totals of interest this is the exact comparison
`10 * |diff| > 9 * prev` (the always-true `date in daily_followers` guard
of the source is dropped). -/
def clampDelta (prev curr : Int) : Int :=
  let diff := curr - prev
  if diff < 0 ∧ 9 * prev < 10 * |diff| then 0 else diff

/-- Consecutive-day deltas over a chronologically sorted `(date, total)`
series, from source lines 434-449: the first observed day contributes no
delta; day `i` records `clampDelta total[i-1] total[i]` under its date. -/
def deltasFor (snaps : List (String × Int)) : List (String × Int) :=
  (snaps.zip snaps.tail).map (fun pc => (pc.2.1, clampDelta pc.1.2 pc.2.2))


/-- Coercion of a cell holding a plain integer payload. -/
theorem to_int_int (n : Int) : to_int (PyVal.int n) = n := rfl

/-- Shares-or-retweets coercion: with a plain integer shares cell the result
is that integer whether or not the Python `or` falls through to the absent
retweets column. -/
theorem to_int_pyOr_int (z : Int) (b : PyVal) (hb : to_int b = 0) :
    to_int (pyOr (PyVal.int z) b) = z := by
  by_cases hz : z = 0 <;> simp [pyOr, PyVal.truthy, hz, hb, to_int_int]

/-- C4: in the daily follower delta computation, a negative delta whose
magnitude exceeds 90% of the previous day's total is clamped to 0; each
consecutive pair of the sorted series records its (possibly clamped) delta
under the later date; in particular previous total 1000 followed by current
total 50 records a clamped delta of 0. -/
theorem anomaly_clamp_drops_to_zero :
    (∀ prev curr : Int, curr - prev < 0 → 9 * prev < 10 * |curr - prev| →
        clampDelta prev curr = 0) ∧
    clampDelta 1000 50 = 0 ∧
    (∀ (x y : String × Int) (rest : List (String × Int)),
        deltasFor (x :: y :: rest) = (y.1, clampDelta x.2 y.2) :: deltasFor (y :: rest)) ∧
    deltasFor [("d1", 1000), ("d2", 50)] = [("d2", 0)] := by
  refine ⟨fun prev curr h1 h2 => ?_, by decide, fun x y rest => rfl, by decide⟩
  unfold clampDelta
  rw [if_pos ⟨h1, h2⟩]

/-- Witness for C4 at the spec's concrete input: previous total 1000, current
total 50. -/
theorem anomaly_clamp_witness :
    (50 - 1000 : Int) < 0 ∧ 9 * 1000 < 10 * |(50 - 1000 : Int)| ∧
      clampDelta 1000 50 = 0 :=
  ⟨by decide, by decide,
    anomaly_clamp_drops_to_zero.1 1000 50 (by decide) (by decide)⟩

/-- C5: for every normalized row, a coerced impressions value of 0 (in
particular a missing impressions column) leaves the engagement-rate field
absent — `none`, not 0, and the total function raises nothing — while a
positive coerced impressions value stores
`round(engagements / impressions * 100, 2)`. -/
theorem engagement_rate_absent_or_formula (event : String) (p : Platform)
    (pd : String) (ph : Nat) (dw : String) (url hs src : String) (row : Row) :
    (to_int (getCol row "impressions") = 0 →
        (normalizeRow event p pd ph dw url hs src row).engagementRate = none) ∧
    (getCol row "impressions" = PyVal.none →
        (normalizeRow event p pd ph dw url hs src row).engagementRate = none) ∧
    (0 < to_int (getCol row "impressions") →
        (normalizeRow event p pd ph dw url hs src row).engagementRate =
          some (round2 ((engagementsVal p row : ℚ) /
            (to_int (getCol row "impressions") : ℚ) * 100))) := by
  refine ⟨fun h => ?_, fun h => ?_, fun h => ?_⟩
  · simp [normalizeRow, h]
  · simp [normalizeRow, h, to_int]
  · simp [normalizeRow, h, h.ne']

/-- Witness for C5: a row with an explicit 0 impressions cell yields an
absent engagement rate. -/
theorem engagement_rate_absent_witness :
    (normalizeRow "e" Platform.IG "01/01/2025" 0 "Wednesday" "" "" "f"
      [("impressions", PyVal.int 0), ("likes", PyVal.int 5)]).engagementRate
      = none :=
  (engagement_rate_absent_or_formula "e" Platform.IG "01/01/2025" 0 "Wednesday"
    "" "" "f" [("impressions", PyVal.int 0), ("likes", PyVal.int 5)]).1 (by decide)

/-- C6: the platform-specific engagement formulas.  FB: reactions count
(replacing the raw likes value when a reactions cell is present) + comments
+ shares; IG: likes + comments + shares + saves; X: likes + replies (when
the comments column is absent) + retweets (when the shares column is
absent); and the two concrete instances from the spec. -/
theorem engagements_formula (rc c s l sv rp rt : Int) :
    engagementsVal Platform.FB
        [("reactions", PyVal.int rc), ("likes", PyVal.int l),
         ("comments", PyVal.int c), ("shares", PyVal.int s)] = rc + c + s ∧
    engagementsVal Platform.IG
        [("likes", PyVal.int l), ("comments", PyVal.int c),
         ("shares", PyVal.int s), ("saves", PyVal.int sv)] = l + c + s + sv ∧
    engagementsVal Platform.X
        [("likes", PyVal.int l), ("replies", PyVal.int rp),
         ("retweets", PyVal.int rt)] = l + rp + rt ∧
    engagementsVal Platform.FB
        [("reactions", PyVal.int 10), ("comments", PyVal.int 3),
         ("shares", PyVal.int 2), ("likes", PyVal.int 99)] = 15 ∧
    engagementsVal Platform.IG
        [("likes", PyVal.int 5), ("comments", PyVal.int 1),
         ("shares", PyVal.int 0), ("saves", PyVal.int 2)] = 8 := by
  refine ⟨?_, ?_, ?_, by decide, by decide⟩
  · show (if PyVal.int rc ≠ PyVal.none then rc else l) + c +
      to_int (pyOr (PyVal.int s) PyVal.none) = rc + c + s
    rw [to_int_pyOr_int s PyVal.none rfl, if_pos (by simp)]
  · show l + c + to_int (pyOr (PyVal.int s) PyVal.none) + sv = l + c + s + sv
    rw [to_int_pyOr_int s PyVal.none rfl]
  · show l + rp + to_int (pyOr PyVal.none (PyVal.int rt)) = l + rp + rt
    rfl

/-- C10: for an FB row whose header has a reactions column with an empty
(NaN) cell, the NaN passes the reactions-is-present check, coerces to 0 and
replaces the likes count, so engagements come out as comments + shares with
the actual likes value excluded. -/
theorem fb_nan_reactions_drop_likes (l c s : Int) :
    engagementsVal Platform.FB
      [("reactions", PyVal.nan), ("likes", PyVal.int l),
       ("comments", PyVal.int c), ("shares", PyVal.int s)] = c + s := by
  show (if PyVal.nan ≠ PyVal.none then to_int PyVal.nan else l) + c +
    to_int (pyOr (PyVal.int s) PyVal.none) = c + s
  rw [to_int_pyOr_int s PyVal.none rfl, if_pos (by simp)]
  show 0 + c + s = c + s
  omega

/-- The keyword-to-event table from source lines 11-17; table order is
significant. -/
def event_keywords : List (String × String) :=
  [("korea", "Rizin South Korea"), ("ws_korea", "Rizin South Korea"),
   ("landmark", "Rizin Landmark"), ("rizin 4", "Rizin 4"), ("rizin4", "Rizin 4")]

/-- The per-entry test of source line 83: the keyword occurs in the
lowercased folder path or in the lowercased file name. -/
def matchPathOrFname (pathLower fnameLower : String) (kv : String × String) : Bool :=
  containsSub pathLower kv.1 || containsSub fnameLower kv.1

/-- The caption scan of source lines 87-95: the first caption text containing
any table keyword decides the event, taking the first matching table entry
within that text. -/
def scanTexts : List String → Option String
  | [] => Option.none
  | t :: ts =>
    match event_keywords.find? (fun kv => containsSub (strLower t) kv.1) with
    | some kv => some kv.2
    | Option.none => scanTexts ts

/-- Event inference from source lines 79-97: one pass over the keyword table
checking folder path and file name together per entry, then the caption
scan, then the sentinel label. -/
def inferEvent (pathLower fnameLower : String) (texts : List String) : String :=
  match event_keywords.find? (matchPathOrFname pathLower fnameLower) with
  | some kv => kv.2
  | Option.none =>
    match scanTexts texts with
    | some name => name
    | Option.none => "Unknown Event"

/-- The event-inference procedure as the claim words it — all folder-path
tokens first, then all filename tokens, then the caption scan.  Stated from
the spec's words, for comparison against `inferEvent`. -/
def inferEventPathFirst (pathLower fnameLower : String) (texts : List String) : String :=
  match event_keywords.find? (fun kv => containsSub pathLower kv.1) with
  | some kv => kv.2
  | Option.none =>
    match event_keywords.find? (fun kv => containsSub fnameLower kv.1) with
    | some kv => kv.2
    | Option.none =>
      match scanTexts texts with
      | some name => name
      | Option.none => "Unknown Event"

/-- A caption list in which no table keyword occurs contributes nothing. -/
theorem scanTexts_eq_none (texts : List String)
    (h : ∀ t ∈ texts, ∀ kv ∈ event_keywords, containsSub (strLower t) kv.1 = false) :
    scanTexts texts = Option.none := by
  induction texts with
  | nil => rfl
  | cons t ts ih =>
    have hfind : event_keywords.find? (fun kv => containsSub (strLower t) kv.1)
        = Option.none :=
      List.find?_eq_none.mpr fun kv hkv => by
        simp [h t (List.mem_cons_self t ts) kv hkv]
    simp only [scanTexts, hfind]
    exact ih fun t' ht' => h t' (List.mem_cons_of_mem t ht')

/-- Captions in which no table keyword occurs are skipped by the scan. -/
theorem scanTexts_append_none (ts₁ rest : List String)
    (h : ∀ t ∈ ts₁, ∀ kv ∈ event_keywords, containsSub (strLower t) kv.1 = false) :
    scanTexts (ts₁ ++ rest) = scanTexts rest := by
  induction ts₁ with
  | nil => rfl
  | cons t ts ih =>
    have hfind : event_keywords.find? (fun kv => containsSub (strLower t) kv.1)
        = Option.none :=
      List.find?_eq_none.mpr fun kv hkv => by
        simp [h t (List.mem_cons_self t ts) kv hkv]
    simp only [List.cons_append, scanTexts, hfind]
    exact ih fun t' ht' => h t' (List.mem_cons_of_mem t ht')

/-- A caption containing a table keyword decides the scan with the first
matching table entry. -/
theorem scanTexts_cons_found (t : String) (ts : List String)
    (l₁ l₂ : List (String × String)) (kv : String × String)
    (hsplit : event_keywords = l₁ ++ kv :: l₂)
    (hbef : ∀ kv' ∈ l₁, containsSub (strLower t) kv'.1 = false)
    (hkv : containsSub (strLower t) kv.1 = true) :
    scanTexts (t :: ts) = some kv.2 := by
  have h1 : l₁.find? (fun kv => containsSub (strLower t) kv.1) = Option.none :=
    List.find?_eq_none.mpr fun x hx => by simp [hbef x hx]
  have h2 : event_keywords.find? (fun kv => containsSub (strLower t) kv.1) = some kv := by
    rw [hsplit, List.find?_append, h1, Option.none_or]
    exact @List.find?_cons_of_pos _ (fun kv => containsSub (strLower t) kv.1) kv l₂ hkv
  simp [scanTexts, h2]

/-- C7 (amended): the event label is decided by one scan of the keyword
table in order, accepting the first entry whose keyword occurs in the
folder path or in the file name (both checked together per entry, so a
filename match on an earlier entry beats a path match on a later entry);
if no entry matches, the caption texts are scanned and the first caption
containing a table keyword assigns the first matching entry's label; if
nothing matches, the sentinel unknown-event label results. -/
theorem event_inference_order (pathLower fnameLower : String) (texts : List String) :
    (∀ (l₁ l₂ : List (String × String)) (kv : String × String),
        event_keywords = l₁ ++ kv :: l₂ →
        (∀ kv' ∈ l₁, matchPathOrFname pathLower fnameLower kv' = false) →
        matchPathOrFname pathLower fnameLower kv = true →
        inferEvent pathLower fnameLower texts = kv.2) ∧
    (∀ (ts₁ ts₂ : List String) (t : String) (l₁ l₂ : List (String × String))
        (kv : String × String),
        texts = ts₁ ++ t :: ts₂ →
        (∀ kv' ∈ event_keywords, matchPathOrFname pathLower fnameLower kv' = false) →
        (∀ t' ∈ ts₁, ∀ kv' ∈ event_keywords, containsSub (strLower t') kv'.1 = false) →
        event_keywords = l₁ ++ kv :: l₂ →
        (∀ kv' ∈ l₁, containsSub (strLower t) kv'.1 = false) →
        containsSub (strLower t) kv.1 = true →
        inferEvent pathLower fnameLower texts = kv.2) ∧
    ((∀ kv ∈ event_keywords, matchPathOrFname pathLower fnameLower kv = false) →
      (∀ t ∈ texts, ∀ kv ∈ event_keywords, containsSub (strLower t) kv.1 = false) →
      inferEvent pathLower fnameLower texts = "Unknown Event") := by
  refine ⟨?_, ?_, ?_⟩
  · intro l₁ l₂ kv hsplit hbef hkv
    have h1 : l₁.find? (matchPathOrFname pathLower fnameLower) = Option.none :=
      List.find?_eq_none.mpr fun x hx => by simp [hbef x hx]
    have h2 : event_keywords.find? (matchPathOrFname pathLower fnameLower) = some kv := by
      rw [hsplit, List.find?_append, h1, Option.none_or,
        List.find?_cons_of_pos _ hkv]
    simp [inferEvent, h2]
  · intro ts₁ ts₂ t l₁ l₂ kv htexts hnopf hts1 hsplit hbef hkv
    have h1 : event_keywords.find? (matchPathOrFname pathLower fnameLower)
        = Option.none :=
      List.find?_eq_none.mpr fun x hx => by simp [hnopf x hx]
    have h2 : scanTexts texts = some kv.2 := by
      rw [htexts, scanTexts_append_none ts₁ (t :: ts₂) hts1,
        scanTexts_cons_found t ts₂ l₁ l₂ kv hsplit hbef hkv]
    simp [inferEvent, h1, h2]
  · intro hpf ht
    have h1 : event_keywords.find? (matchPathOrFname pathLower fnameLower)
        = Option.none :=
      List.find?_eq_none.mpr fun x hx => by simp [hpf x hx]
    simp [inferEvent, h1, scanTexts_eq_none texts ht]

/-- Witness for C7 (amended): a file named after the Korea event inside a
Landmark-named folder is labelled by the filename match, because the
"korea" entry precedes the "landmark" entry in the table; and when neither
path nor filename matches any entry, a caption containing "#Rizin4" labels
the file through the caption scan. -/
theorem event_inference_order_witness :
    inferEvent "landmark" "korea" [] = "Rizin South Korea" ∧
    inferEvent "x" "posts" ["Go #Rizin4 tonight"] = "Rizin 4" :=
  ⟨(event_inference_order "landmark" "korea" []).1 []
    [("ws_korea", "Rizin South Korea"), ("landmark", "Rizin Landmark"),
     ("rizin 4", "Rizin 4"), ("rizin4", "Rizin 4")]
    ("korea", "Rizin South Korea") rfl (by simp) (by decide),
   (event_inference_order "x" "posts" ["Go #Rizin4 tonight"]).2.1 []
    [] "Go #Rizin4 tonight"
    [("korea", "Rizin South Korea"), ("ws_korea", "Rizin South Korea"),
     ("landmark", "Rizin Landmark"), ("rizin 4", "Rizin 4")]
    [] ("rizin4", "Rizin 4") rfl (by decide) (by simp) rfl (by decide) (by decide)⟩

/-- Counterexample for C7 as stated: with folder path "landmark" and file
name "korea", the code returns the filename-keyed event while the claimed
path-tokens-first procedure returns the path-keyed one. -/
theorem event_inference_path_first_cex :
    inferEvent "landmark" "korea" [] = "Rizin South Korea" ∧
    inferEventPathFirst "landmark" "korea" [] = "Rizin Landmark" ∧
    ("Rizin South Korea" : String) ≠ "Rizin Landmark" :=
  ⟨by decide, by decide, by decide⟩

/-- C8 (amended): each raw metric field of a normalized record is absent
exactly when its coerced value is 0 and otherwise stores the coerced
integer unchanged (`engagements` always stores the coerced total, 0
included); string cells that fail both numeric parses coerce to 0, as do
missing columns and NaN cells; a cell that coerces to a negative integer
is stored as-is, so negative stored values are not prevented. -/
theorem metric_storage_zero_absent (event : String) (p : Platform) (pd : String)
    (ph : Nat) (dw : String) (url hs src : String) (row : Row) :
    ((normalizeRow event p pd ph dw url hs src row).impressions = Option.none ↔
        to_int (getCol row "impressions") = 0) ∧
    (∀ v : Int, (normalizeRow event p pd ph dw url hs src row).impressions = some v →
        v = to_int (getCol row "impressions") ∧ v ≠ 0) ∧
    ((normalizeRow event p pd ph dw url hs src row).reach = Option.none ↔
        to_int (getCol row "reach") = 0) ∧
    ((normalizeRow event p pd ph dw url hs src row).linkClicks = Option.none ↔
        to_int (pyOr (getCol row "clicks") (getCol row "link_clicks")) = 0) ∧
    ((normalizeRow event p pd ph dw url hs src row).engagements = engagementsVal p row) ∧
    (∀ s : String, pyParseInt s = Option.none → pyParseFloat s = Option.none →
        to_int (PyVal.str s) = 0) ∧
    to_int PyVal.none = 0 ∧ to_int PyVal.nan = 0 := by
  refine ⟨?_, ?_, ?_, ?_, rfl, ?_, rfl, rfl⟩
  · by_cases h : to_int (getCol row "impressions") = 0 <;> simp [normalizeRow, h]
  · intro v hv
    by_cases h : to_int (getCol row "impressions") = 0 <;>
      simp [normalizeRow, h] at hv
    exact ⟨hv.symm, hv ▸ h⟩
  · by_cases h : to_int (getCol row "reach") = 0 <;> simp [normalizeRow, h]
  · by_cases h : to_int (pyOr (getCol row "clicks") (getCol row "link_clicks")) = 0 <;>
      simp [normalizeRow, h]
  · intro s h1 h2
    simp [to_int, h1, h2]

/-- Witness for C8 (amended): an unparseable string cell coerces to 0 and a
0 cell is stored as absent. -/
theorem metric_storage_witness :
    (normalizeRow "e" Platform.IG "01/01/2025" 0 "Wednesday" "" "" "f"
      [("impressions", PyVal.int 0)]).impressions = Option.none ∧
    to_int (PyVal.str "n/a") = 0 :=
  ⟨(metric_storage_zero_absent "e" Platform.IG "01/01/2025" 0 "Wednesday" "" "" "f"
      [("impressions", PyVal.int 0)]).1.mpr (by decide),
   (metric_storage_zero_absent "e" Platform.IG "01/01/2025" 0 "Wednesday" "" "" "f"
      [("impressions", PyVal.int 0)]).2.2.2.2.2.1 "n/a" (by decide) (by decide)⟩

/-- Counterexample for C8 as stated: a cell that parses to -3 is stored as
the negative count -3, so "never a negative number" fails. -/
theorem metric_storage_negative_cex :
    (normalizeRow "e" Platform.IG "01/01/2025" 0 "Wednesday" "" "" "f"
      [("impressions", PyVal.int (-3))]).impressions = some (-3) ∧
    (-3 : Int) < 0 :=
  ⟨by decide, by decide⟩

/-- One row of the unified DataFrame as seen by the PDF merge (source lines
404-419): the Post URL join key and the three metric cells the merge may
fill.  In the CSV-built table an absent metric is the empty string, not
NaN; NaN can reach these cells only through the merge itself. -/
structure URow where
  postUrl : String
  impressions : PyVal
  reach : PyVal
  engagements : PyVal
deriving DecidableEq

/-- One PDF-extracted table row keyed by post URL (source lines 352-399,
after the lower-casing and `post url` rename of lines 392-399). -/
structure PdfRow where
  post_url : String
  impressions : PyVal
  reach : PyVal
  engagements : PyVal
deriving DecidableEq

/-- pandas `Series.fillna`, cellwise: a NaN cell takes the fill value, any
other cell is kept. -/
def fillna (old new : PyVal) : PyVal := if old = PyVal.nan then new else old

/-- The rows produced for one unified row by the left merge of source lines
412-413 followed by the three `fillna` fills of lines 415-417: the row
pairs with every URL-equal PDF row in PDF order; with no match the PDF
columns are NaN, so the fills leave the row unchanged. -/
def mergeMatches (pdf : List PdfRow) (r : URow) : List URow :=
  match pdf.filter (fun p => decide (p.post_url = r.postUrl)) with
  | [] => [r]
  | ms => ms.map (fun p =>
      { r with impressions := fillna r.impressions p.impressions,
               reach := fillna r.reach p.reach,
               engagements := fillna r.engagements p.engagements })

/-- The whole PDF merge (source lines 410-419), in left-table order. -/
def mergePdf (unified : List URow) (pdf : List PdfRow) : List URow :=
  unified.flatMap (mergeMatches pdf)

/-- Frame condition for one metric cell under the merge: a non-NaN cell is
never overwritten, and any change installs the value of a URL-matched PDF
row into a cell that was NaN. -/
def FieldFrame (pdf : List PdfRow) (url : String) (o n : PyVal)
    (proj : PdfRow → PyVal) : Prop :=
  (o ≠ PyVal.nan → n = o) ∧
  (n ≠ o → o = PyVal.nan ∧ ∃ p ∈ pdf, p.post_url = url ∧ n = proj p)

/-- Frame condition for one unified row under the merge: the URL is
untouched and every metric cell obeys `FieldFrame`. -/
def MergeFrame (pdf : List PdfRow) (old new : URow) : Prop :=
  new.postUrl = old.postUrl ∧
  FieldFrame pdf old.postUrl old.impressions new.impressions (fun p => p.impressions) ∧
  FieldFrame pdf old.postUrl old.reach new.reach (fun p => p.reach) ∧
  FieldFrame pdf old.postUrl old.engagements new.engagements (fun p => p.engagements)

/-- Filtering by a key is a singleton-or-empty operation when the mapped
keys are pairwise distinct. -/
theorem filter_key_tail_nil {α β : Type _} [DecidableEq β] (f : α → β) (c : β)
    (l : List α) (hd : (l.map f).Nodup) (p : α) (rest : List α)
    (hfil : l.filter (fun x => decide (f x = c)) = p :: rest) : rest = [] := by
  rcases rest with _ | ⟨q, rest'⟩
  · rfl
  · exfalso
    have hsub : (p :: q :: rest').Sublist l := hfil ▸ List.filter_sublist l
    have hnd : ((p :: q :: rest').map f).Nodup := ((hsub.map f).nodup hd)
    have hp : f p = c := by
      have hmem : p ∈ l.filter (fun x => decide (f x = c)) := by
        rw [hfil]; exact List.mem_cons_self p (q :: rest')
      simpa using (List.mem_filter.mp hmem).2
    have hq : f q = c := by
      have hmem : q ∈ l.filter (fun x => decide (f x = c)) := by
        rw [hfil]; exact List.mem_cons_of_mem p (List.mem_cons_self q rest')
      simpa using (List.mem_filter.mp hmem).2
    have hin : f q ∈ (q :: rest').map f := by simp
    rw [List.map_cons, List.nodup_cons] at hnd
    exact hnd.1 (show f p ∈ (q :: rest').map f by rw [hp, ← hq]; exact hin)

/-- With pairwise-distinct PDF URLs each unified row yields exactly one
output row, and that row satisfies the frame condition. -/
theorem mergeMatches_frame (pdf : List PdfRow)
    (hd : (pdf.map (fun p => p.post_url)).Nodup) (r : URow) :
    ∃ out, mergeMatches pdf r = [out] ∧ MergeFrame pdf r out := by
  unfold mergeMatches
  rcases hfil : pdf.filter (fun p => decide (p.post_url = r.postUrl)) with _ | ⟨p, rest⟩
  · rw [hfil]
    exact ⟨r, rfl, rfl, ⟨fun _ => rfl, fun h => absurd rfl h⟩,
      ⟨fun _ => rfl, fun h => absurd rfl h⟩, ⟨fun _ => rfl, fun h => absurd rfl h⟩⟩
  · have hrest : rest = [] :=
      filter_key_tail_nil (fun p => p.post_url) r.postUrl pdf hd p rest hfil
    subst hrest
    rw [hfil]
    have hp : p ∈ pdf ∧ p.post_url = r.postUrl := by
      have hmem : p ∈ pdf.filter (fun p => decide (p.post_url = r.postUrl)) := by
        rw [hfil]; exact List.mem_cons_self p []
      have hmf := List.mem_filter.mp hmem
      exact ⟨hmf.1, by simpa using hmf.2⟩
    refine ⟨_, rfl, rfl, ?_, ?_, ?_⟩
    · refine ⟨fun h => by simp [fillna, h], fun h => ?_⟩
      by_cases hnan : r.impressions = PyVal.nan
      · exact ⟨hnan, p, hp.1, hp.2, by simp [fillna, hnan]⟩
      · exact absurd (by simp [fillna, hnan]) h
    · refine ⟨fun h => by simp [fillna, h], fun h => ?_⟩
      by_cases hnan : r.reach = PyVal.nan
      · exact ⟨hnan, p, hp.1, hp.2, by simp [fillna, hnan]⟩
      · exact absurd (by simp [fillna, hnan]) h
    · refine ⟨fun h => by simp [fillna, h], fun h => ?_⟩
      by_cases hnan : r.engagements = PyVal.nan
      · exact ⟨hnan, p, hp.1, hp.2, by simp [fillna, hnan]⟩
      · exact absurd (by simp [fillna, hnan]) h

/-- C9 (amended): provided the PDF-extracted rows carry pairwise-distinct
URLs, the merge creates no new record (the output has exactly the input
rows, in order) and each output row differs from its input row only by
filling NaN metric cells with the values of the unique URL-matched PDF
row; non-NaN cells are never overwritten. -/
theorem pdf_merge_frame (u : List URow) (pdf : List PdfRow)
    (hd : (pdf.map (fun p => p.post_url)).Nodup) :
    (mergePdf u pdf).length = u.length ∧
    List.Forall₂ (MergeFrame pdf) u (mergePdf u pdf) := by
  induction u with
  | nil => exact ⟨rfl, List.Forall₂.nil⟩
  | cons r u ih =>
    obtain ⟨out, hout, hfr⟩ := mergeMatches_frame pdf hd r
    have hcons : mergePdf (r :: u) pdf = out :: mergePdf u pdf := by
      show mergeMatches pdf r ++ mergePdf u pdf = out :: mergePdf u pdf
      rw [hout]; rfl
    rw [hcons]
    exact ⟨by simpa using ih.1, List.Forall₂.cons hfr ih.2⟩

/-- Witness for C9 (amended) at a concrete merge: one unified row with a NaN
impressions cell, one matching PDF row. -/
theorem pdf_merge_frame_witness :
    (mergePdf [⟨"u", PyVal.nan, PyVal.int 7, PyVal.int 3⟩]
        [⟨"u", PyVal.int 5, PyVal.nan, PyVal.nan⟩]).length = 1 ∧
    List.Forall₂ (MergeFrame [⟨"u", PyVal.int 5, PyVal.nan, PyVal.nan⟩])
      [⟨"u", PyVal.nan, PyVal.int 7, PyVal.int 3⟩]
      (mergePdf [⟨"u", PyVal.nan, PyVal.int 7, PyVal.int 3⟩]
        [⟨"u", PyVal.int 5, PyVal.nan, PyVal.nan⟩]) :=
  pdf_merge_frame [⟨"u", PyVal.nan, PyVal.int 7, PyVal.int 3⟩]
    [⟨"u", PyVal.int 5, PyVal.nan, PyVal.nan⟩] (by decide)

/-- Counterexample for C9 as stated: two extracted rows sharing one URL
make the left join emit two output rows for a single input record, so the
merge does create a new record. -/
theorem pdf_merge_duplicate_cex :
    (mergePdf [⟨"u", PyVal.nan, PyVal.nan, PyVal.int 0⟩]
        [⟨"u", PyVal.int 5, PyVal.nan, PyVal.nan⟩,
         ⟨"u", PyVal.int 7, PyVal.nan, PyVal.nan⟩]).length = 2 ∧
    (2 : Nat) ≠ 1 :=
  ⟨by decide, by decide⟩

/-- Deduplication key: primary URL key or fallback composite key. -/
inductive DedupKey where
  | url : String → DedupKey
  | comp : Platform → String → Nat → String → DedupKey
deriving DecidableEq

/-- Modelled from the spec: the Deduplicator belongs to the later-generation
ingestion script, which is not among the provided source files — the
provided `test.py` writes the unified table without a dedup pass.  Spec 4.5:
the primary key is the non-empty trimmed postUrl; with an empty URL the
fallback composite key is (platform, post date, hour, fixed-length prefix
of the hashtag string).  The spec leaves the prefix length unnamed, so it
stays a parameter. -/
def dedupKey (prefixLen : Nat) (r : PostRecord) : DedupKey :=
  if strTrim r.postUrl ≠ "" then DedupKey.url (strTrim r.postUrl)
  else DedupKey.comp r.platform r.postDate r.postHour (r.hashtags.take prefixLen)

/-- Modelled from the spec: the stable, order-preserving collapse of spec
4.5 — walk the records in encounter order and keep a record exactly when
its key has not been seen before. -/
def dedupGo (prefixLen : Nat) (seen : List DedupKey) :
    List PostRecord → List PostRecord
  | [] => []
  | r :: rs =>
    if dedupKey prefixLen r ∈ seen then dedupGo prefixLen seen rs
    else r :: dedupGo prefixLen (dedupKey prefixLen r :: seen) rs

/-- Modelled from the spec: the Deduplicator entry point. -/
def dedupRecords (prefixLen : Nat) (rs : List PostRecord) : List PostRecord :=
  dedupGo prefixLen [] rs

/-- For a non-empty target URL the key is the URL key exactly for records
with that trimmed URL. -/
theorem dedupKey_eq_url (n : Nat) (r : PostRecord) (u : String) (hu : u ≠ "") :
    dedupKey n r = DedupKey.url u ↔ strTrim r.postUrl = u := by
  unfold dedupKey
  by_cases h : strTrim r.postUrl = ""
  · rw [if_neg (by simp [h])]
    simp only [iff_iff_implies_and_implies]
    exact ⟨fun hc => absurd hc (by simp), fun he => absurd (h ▸ he) (Ne.symm hu)⟩
  · rw [if_pos h]
    exact ⟨fun hc => by injection hc, fun he => by rw [he]⟩

/-- Once the URL key has been recorded as seen, no later record with that
URL survives the collapse. -/
theorem dedupGo_filter_url_seen (n : Nat) (u : String) (hu : u ≠ "") :
    ∀ (rs : List PostRecord) (seen : List DedupKey), DedupKey.url u ∈ seen →
      (dedupGo n seen rs).filter (fun r => decide (strTrim r.postUrl = u)) = [] := by
  intro rs
  induction rs with
  | nil => intro seen _; rfl
  | cons r rs ih =>
    intro seen hseen
    by_cases hk : dedupKey n r ∈ seen
    · rw [dedupGo, if_pos hk]
      exact ih seen hseen
    · have hne : ¬ strTrim r.postUrl = u := fun he =>
        hk (((dedupKey_eq_url n r u hu).mpr he) ▸ hseen)
      rw [dedupGo, if_neg hk, List.filter_cons, if_neg (by simpa using hne)]
      exact ih _ (List.mem_cons_of_mem _ hseen)

/-- Before the URL key is seen, the collapse keeps exactly the first record
carrying that URL. -/
theorem dedupGo_filter_url_new (n : Nat) (u : String) (hu : u ≠ "") :
    ∀ (rs : List PostRecord) (seen : List DedupKey), DedupKey.url u ∉ seen →
      (dedupGo n seen rs).filter (fun r => decide (strTrim r.postUrl = u)) =
        (rs.filter (fun r => decide (strTrim r.postUrl = u))).take 1 := by
  intro rs
  induction rs with
  | nil => intro seen _; rfl
  | cons r rs ih =>
    intro seen hseen
    by_cases hk : dedupKey n r ∈ seen
    · have hne : ¬ strTrim r.postUrl = u := fun he =>
        hseen (((dedupKey_eq_url n r u hu).mpr he) ▸ hk)
      rw [dedupGo, if_pos hk, List.filter_cons, if_neg (by simpa using hne)]
      exact ih seen hseen
    · by_cases hr : strTrim r.postUrl = u
      · have hkey : dedupKey n r = DedupKey.url u := (dedupKey_eq_url n r u hu).mpr hr
        rw [dedupGo, if_neg hk, List.filter_cons, if_pos (by simpa using hr),
          List.filter_cons, if_pos (by simpa using hr), List.take_succ_cons,
          List.take_zero]
        rw [dedupGo_filter_url_seen n u hu rs _ (hkey ▸ List.mem_cons_self _ _)]
      · rw [dedupGo, if_neg hk, List.filter_cons, if_neg (by simpa using hr),
          List.filter_cons, if_neg (by simpa using hr)]
        refine ih _ fun hin => ?_
        rcases List.mem_cons.mp hin with h1 | h2
        · exact hr ((dedupKey_eq_url n r u hu).mp h1.symm)
        · exact hseen h2

/-- C1: whenever two or more records share one non-empty trimmed postUrl,
the deduplicated table keeps exactly one record with that URL, namely the
first-encountered one (the head of the url-filtered input, i.e. its
1-element take). -/
theorem dedup_first_url_wins (prefixLen : Nat) (rs : List PostRecord)
    (u : String) (hu : u ≠ "")
    (h2 : 2 ≤ (rs.filter (fun r => decide (strTrim r.postUrl = u))).length) :
    ((dedupRecords prefixLen rs).filter
        (fun r => decide (strTrim r.postUrl = u))).length = 1 ∧
    (dedupRecords prefixLen rs).filter (fun r => decide (strTrim r.postUrl = u)) =
      (rs.filter (fun r => decide (strTrim r.postUrl = u))).take 1 := by
  have hB := dedupGo_filter_url_new prefixLen u hu rs [] (by simp)
  refine ⟨?_, hB⟩
  rw [dedupRecords] at *
  rw [hB, List.length_take]
  omega

/-- A concrete record builder for witnesses: only the grouping identity
fields and the engagement count vary. -/
def mkPost (p : Platform) (d : String) (url : String) (e : Int) : PostRecord :=
  { event := "e", platform := p, postDate := d, postHour := 0,
    dayOfWeek := "Monday", postUrl := url, hashtags := "",
    impressions := Option.none, reach := Option.none, engagements := e,
    engagementRate := Option.none, linkClicks := Option.none,
    followsGained := 0, sourceNote := "s" }

/-- Witness for C1: three records, two sharing the URL "u1"; the collapse
keeps one "u1" record, the first one. -/
theorem dedup_first_url_wins_witness :
    ((dedupRecords 20 [mkPost Platform.IG "d" "u1" 1, mkPost Platform.IG "d" "u1" 2,
        mkPost Platform.IG "d" "u2" 3]).filter
        (fun r => decide (strTrim r.postUrl = "u1"))).length = 1 ∧
    (dedupRecords 20 [mkPost Platform.IG "d" "u1" 1, mkPost Platform.IG "d" "u1" 2,
        mkPost Platform.IG "d" "u2" 3]).filter
        (fun r => decide (strTrim r.postUrl = "u1")) =
      ([mkPost Platform.IG "d" "u1" 1, mkPost Platform.IG "d" "u1" 2,
        mkPost Platform.IG "d" "u2" 3].filter
        (fun r => decide (strTrim r.postUrl = "u1"))).take 1 :=
  dedup_first_url_wins 20
    [mkPost Platform.IG "d" "u1" 1, mkPost Platform.IG "d" "u1" 2,
     mkPost Platform.IG "d" "u2" 3] "u1" (by decide) (by decide)

/-- Rounding to the nearest integer moves a rational by at most 1/2. -/
theorem roundHalfEven_close (q : ℚ) : |(roundHalfEven q : ℚ) - q| ≤ 1 / 2 := by
  have h1 : (⌊q⌋ : ℚ) ≤ q := Int.floor_le q
  have h2 : q < ⌊q⌋ + 1 := Int.lt_floor_add_one q
  simp only [roundHalfEven]
  split_ifs with ha hb hc
  · rw [abs_sub_comm, abs_of_nonneg (by linarith)]
    linarith
  · push_cast
    rw [abs_of_nonneg (by linarith)]
    linarith
  · rw [abs_sub_comm, abs_of_nonneg (by linarith)]
    linarith
  · push_cast
    rw [abs_of_nonneg (by linarith)]
    linarith

/-- Rounding every element of a list moves its sum by at most half the
length. -/
theorem sum_round_close (l : List ℚ) :
    |(l.map (fun q => (roundHalfEven q : ℚ))).sum - l.sum| ≤ (l.length : ℚ) / 2 := by
  induction l with
  | nil => simp
  | cons a l ih =>
    have ha := roundHalfEven_close a
    simp only [List.map_cons, List.sum_cons, List.length_cons]
    have heq : (roundHalfEven a : ℚ) + (l.map (fun q => (roundHalfEven q : ℚ))).sum -
        (a + l.sum) = ((roundHalfEven a : ℚ) - a) +
          ((l.map (fun q => (roundHalfEven q : ℚ))).sum - l.sum) := by ring
    rw [heq]
    refine le_trans (abs_add _ _) (le_trans (add_le_add ha ih) (le_of_eq ?_))
    push_cast
    ring

/-- Casting an integer list sum into the rationals. -/
theorem intListSum_cast (l : List Int) :
    ((l.sum : Int) : ℚ) = (l.map (fun z : ℤ => (z : ℚ))).sum := by
  induction l with
  | nil => simp
  | cons a l ih => simp [ih]

/-- Group membership for the attribution groupby: same platform and post
date. -/
def inGroup (p : Platform) (d : String) (r : PostRecord) : Bool :=
  decide (r.platform = p ∧ r.postDate = d)

/-- Net new followers recorded for a date, 0 when the date carries no delta
(`daily_new_followers.get(post_date, 0)`, source line 456). -/
def deltaOn (snaps : List (String × Int)) (d : String) : Int :=
  ((deltasFor snaps).lookup d).getD 0

/-- Total engagements of one platform-day group
(`group["Engagements"].astype(float).sum()`, source line 458; the cells are
integers, so the float sum is integer-valued). -/
def groupEng (posts : List PostRecord) (p : Platform) (d : String) : Int :=
  ((posts.filter (inGroup p d)).map (fun r => r.engagements)).sum

/-- Modelled from the spec: the later-generation Follower Attribution Engine
keeps one `(date, totalFollowers)` series per platform and distributes each
platform-day's positive clamped delta across that day's posts by engagement
share, each allocation rounded independently (spec 4.6).  The provided
`test.py` implements the same delta and allocation arithmetic (lines
432-472) but grouped by date alone over one platform-blind series.  The
delta clamp is `clampDelta` from the source; days with no positive delta or
no positive engagement total allocate 0 to every post. -/
def attributedGain (snaps : Platform → List (String × Int))
    (posts : List PostRecord) (r : PostRecord) : Int :=
  let delta := deltaOn (snaps r.platform) r.postDate
  if 0 < delta then
    let t := groupEng posts r.platform r.postDate
    if 0 < t then roundHalfEven ((r.engagements : ℚ) / (t : ℚ) * (delta : ℚ))
    else 0
  else 0

/-- Modelled from the spec: the attribution pass writes each record's
allocation into `followsGained` and touches nothing else. -/
def attributePosts (snaps : Platform → List (String × Int))
    (posts : List PostRecord) : List PostRecord :=
  posts.map (fun r => { r with followsGained := attributedGain snaps posts r })

set_option maxHeartbeats 1000000 in
/-- C2 (amended): after the attribution pass, for a platform-day whose
clamped delta and engagement total are both positive, the group's
`followsGained` sum equals the delta up to the per-post rounding error
(at most half a follower per post); for a non-positive delta, or a group
without positive engagements, every allocation is 0 and so is the sum. -/
theorem attribution_day_sum (snaps : Platform → List (String × Int))
    (posts : List PostRecord) (p : Platform) (d : String) :
    (0 < deltaOn (snaps p) d → 0 < groupEng posts p d →
      |(((((attributePosts snaps posts).filter (inGroup p d)).map
            (fun r => r.followsGained)).sum : ℤ) : ℚ) - (deltaOn (snaps p) d : ℚ)| ≤
        ((posts.filter (inGroup p d)).length : ℚ) / 2) ∧
    (deltaOn (snaps p) d ≤ 0 →
      (((attributePosts snaps posts).filter (inGroup p d)).map
          (fun r => r.followsGained)).sum = 0) ∧
    (groupEng posts p d ≤ 0 →
      (((attributePosts snaps posts).filter (inGroup p d)).map
          (fun r => r.followsGained)).sum = 0) := by
  have hcomm : (attributePosts snaps posts).filter (inGroup p d) =
      (posts.filter (inGroup p d)).map
        (fun r => { r with followsGained := attributedGain snaps posts r }) := by
    rw [attributePosts, List.filter_map]
    rfl
  have hmem : ∀ r ∈ posts.filter (inGroup p d), r.platform = p ∧ r.postDate = d := by
    intro r hr
    have := (List.mem_filter.mp hr).2
    simpa [inGroup] using this
  refine ⟨fun hδ hT => ?_, fun hδ => ?_, fun hT => ?_⟩
  · have hmap : (((attributePosts snaps posts).filter (inGroup p d)).map
        (fun r => r.followsGained)) =
        (posts.filter (inGroup p d)).map (fun r => roundHalfEven
          ((r.engagements : ℚ) / (groupEng posts p d : ℚ) *
            (deltaOn (snaps p) d : ℚ))) := by
      rw [hcomm, List.map_map]
      refine List.map_congr_left fun r hr => ?_
      obtain ⟨hp, hd2⟩ := hmem r hr
      show attributedGain snaps posts r = _
      simp only [attributedGain]
      rw [hp, hd2, if_pos hδ, if_pos hT]
    rw [hmap, intListSum_cast, List.map_map]
    have hxs : (posts.filter (inGroup p d)).map ((fun z : ℤ => (z : ℚ)) ∘ fun r =>
        roundHalfEven ((r.engagements : ℚ) / (groupEng posts p d : ℚ) *
          (deltaOn (snaps p) d : ℚ))) =
        ((posts.filter (inGroup p d)).map (fun r => (r.engagements : ℚ) /
          (groupEng posts p d : ℚ) * (deltaOn (snaps p) d : ℚ))).map
            (fun q => (roundHalfEven q : ℚ)) := by
      rw [List.map_map]
      rfl
    rw [hxs]
    have hsum : ((posts.filter (inGroup p d)).map (fun r => (r.engagements : ℚ) /
        (groupEng posts p d : ℚ) * (deltaOn (snaps p) d : ℚ))).sum =
        (deltaOn (snaps p) d : ℚ) := by
      have hcg : ∀ r ∈ posts.filter (inGroup p d),
          (r.engagements : ℚ) / (groupEng posts p d : ℚ) * (deltaOn (snaps p) d : ℚ) =
            ((deltaOn (snaps p) d : ℚ) / (groupEng posts p d : ℚ)) *
              (r.engagements : ℚ) := fun r _ => by ring
      rw [List.map_congr_left hcg, List.sum_map_mul_left]
      have hTs : ((posts.filter (inGroup p d)).map (fun r => (r.engagements : ℚ))).sum =
          (groupEng posts p d : ℚ) := by
        rw [groupEng, intListSum_cast, List.map_map]
        rfl
      rw [hTs]
      exact div_mul_cancel₀ _ (by exact_mod_cast hT.ne')
    have hfinal := sum_round_close ((posts.filter (inGroup p d)).map
      (fun r => (r.engagements : ℚ) / (groupEng posts p d : ℚ) *
        (deltaOn (snaps p) d : ℚ)))
    rw [hsum, List.length_map] at hfinal
    exact hfinal
  · rw [hcomm, List.map_map]
    refine List.sum_eq_zero fun x hx => ?_
    obtain ⟨r, hr, hrx⟩ := List.mem_map.mp hx
    obtain ⟨hp, hd2⟩ := hmem r hr
    rw [← hrx]
    show attributedGain snaps posts r = 0
    simp only [attributedGain]
    rw [hp, hd2, if_neg (not_lt.mpr hδ)]
  · rw [hcomm, List.map_map]
    refine List.sum_eq_zero fun x hx => ?_
    obtain ⟨r, hr, hrx⟩ := List.mem_map.mp hx
    obtain ⟨hp, hd2⟩ := hmem r hr
    rw [← hrx]
    show attributedGain snaps posts r = 0
    simp only [attributedGain]
    rw [hp, hd2]
    by_cases hδ : 0 < deltaOn (snaps p) d
    · rw [if_pos hδ, if_neg (not_lt.mpr hT)]
    · rw [if_neg hδ]

/-- Witness for C2 (amended): delta +20 on "d2", two IG posts with
engagements 3 and 1; the group sum of allocations is within one half per
post of the delta. -/
theorem attribution_day_sum_witness :
    |(((((attributePosts (fun _ => [("d1", (100 : Int)), ("d2", 120)])
          [mkPost Platform.IG "d2" "a" 3, mkPost Platform.IG "d2" "b" 1]).filter
            (inGroup Platform.IG "d2")).map (fun r => r.followsGained)).sum : ℤ) : ℚ) -
        (deltaOn [("d1", (100 : Int)), ("d2", 120)] "d2" : ℚ)| ≤
      (([mkPost Platform.IG "d2" "a" 3, mkPost Platform.IG "d2" "b" 1].filter
          (inGroup Platform.IG "d2")).length : ℚ) / 2 :=
  (attribution_day_sum (fun _ => [("d1", 100), ("d2", 120)])
    [mkPost Platform.IG "d2" "a" 3, mkPost Platform.IG "d2" "b" 1]
    Platform.IG "d2").1 (by decide) (by decide)

/-- Counterexample for C2 as stated: a mild drop (1000 to 990) survives the
anomaly clamp as delta -10, the attribution allocates 0 to the day's only
post, and 0 is not within per-post rounding error of -10. -/
theorem attribution_negative_delta_cex :
    deltaOn [("d1", (1000 : Int)), ("d2", 990)] "d2" = -10 ∧
    (((attributePosts (fun _ => [("d1", (1000 : Int)), ("d2", 990)])
        [mkPost Platform.IG "d2" "a" 5]).filter (inGroup Platform.IG "d2")).map
          (fun r => r.followsGained)).sum = 0 ∧
    ¬ (|((0 : ℤ) : ℚ) - ((-10 : ℤ) : ℚ)| ≤ ((1 : ℕ) : ℚ) / 2) :=
  ⟨by decide, by decide, by norm_num⟩

/-- Calendar date with hour-of-day and weekday name, the output triple of
the timestamp normalizer. -/
structure DateTriple where
  year : Int
  month : Int
  day : Int
  hour : Int
  weekday : String
deriving DecidableEq

/-- Weekday names indexed from Sunday = 0. -/
def weekdayName : Int → String
  | 0 => "Sunday"
  | 1 => "Monday"
  | 2 => "Tuesday"
  | 3 => "Wednesday"
  | 4 => "Thursday"
  | 5 => "Friday"
  | _ => "Saturday"

/-- Proleptic-Gregorian civil date from a count of days since 1970-01-01
(floor-division form of the standard era/year-of-era algorithm). -/
def civilFromDays (z0 : Int) : Int × Int × Int :=
  let z := z0 + 719468
  let era := z / 146097
  let doe := z - era * 146097
  let yoe := (doe - doe / 1460 + doe / 36524 - doe / 146096) / 365
  let y := yoe + era * 400
  let doy := doe - (365 * yoe + yoe / 4 - yoe / 100)
  let mp := (5 * doy + 2) / 153
  let d := doy - (153 * mp + 2) / 5 + 1
  let m := mp + (if mp < 10 then 3 else -9)
  (y + (if m ≤ 2 then 1 else 0), m, d)

/-- Days since 1970-01-01 of a proleptic-Gregorian civil date (inverse
algorithm of `civilFromDays`). -/
def daysFromCivil (y0 m d : Int) : Int :=
  let y := y0 - (if m ≤ 2 then 1 else 0)
  let era := y / 400
  let yoe := y - era * 400
  let doy := (153 * (m + (if 2 < m then -3 else 9)) + 2) / 5 + d - 1
  let doe := yoe * 365 + yoe / 4 - yoe / 100 + doy
  era * 146097 + doe - 719468

/-- The fixed target zone offset: JST is UTC+9 with no daylight saving. -/
def jstOffsetSeconds : Int := 9 * 3600

/-- Modelled from the spec: the Timestamp Normalizer's single canonical
conversion from an epoch-seconds instant to the JST `(date, hour, weekday)`
triple (spec 4.1 and 3: all three fields derive from one conversion of the
same instant).  This component belongs to the later-generation script,
which is not among the provided sources; the provided `test.py` only
`strptime`s two explicit string formats. -/
def tripleOfEpochSeconds (t : Int) : DateTriple :=
  let tj := t + jstOffsetSeconds
  let days := tj / 86400
  let secs := tj % 86400
  let ymd := civilFromDays days
  ⟨ymd.1, ymd.2.1, ymd.2.2, secs / 3600, weekdayName ((days + 4) % 7)⟩

/-- Modelled from the spec: a numeric timestamp input is interpreted as
epoch seconds when its magnitude is below 1e11, else as epoch milliseconds
(spec 4.1). -/
def normalizeEpochNumber (x : Int) : DateTriple :=
  if |x| < 100000000000 then tripleOfEpochSeconds x
  else tripleOfEpochSeconds (x / 1000)

/-- Zoneless civil date-time components, the parse result of an ISO string
without zone designator. -/
structure CivilTime where
  year : Int
  month : Int
  day : Int
  hour : Int
  minute : Int
  second : Int
deriving DecidableEq

/-- The epoch-seconds instant denoted by zoneless civil components under
the spec's default UTC source zone. -/
def instantOfCivilUtc (c : CivilTime) : Int :=
  daysFromCivil c.year c.month c.day * 86400 +
    c.hour * 3600 + c.minute * 60 + c.second

/-- Modelled from the spec: an ISO date-time string without zone
information denotes its civil components in the default UTC source zone
(spec 4.1); the character-level parse into components is abstracted, and
the normalizer converts the components' instant to the JST triple. -/
def normalizeIsoString (c : CivilTime) : DateTriple :=
  tripleOfEpochSeconds (instantOfCivilUtc c)


/-- C3 (amended): for an instant whose epoch-seconds magnitude is below the
1e11 threshold and whose epoch-milliseconds magnitude reaches it, the
epoch-seconds number, the epoch-milliseconds number and any equivalent ISO
civil components all normalize to the identical JST (date, hour, weekday)
triple; below the threshold the number is read as seconds, at or above it
as milliseconds. -/
theorem timestamp_round_trip (t : Int) (c : CivilTime)
    (hs : |t| < 100000000000)
    (hms : 100000000000 ≤ |1000 * t|)
    (hc : instantOfCivilUtc c = t) :
    normalizeEpochNumber t = tripleOfEpochSeconds t ∧
    normalizeEpochNumber (1000 * t) = tripleOfEpochSeconds t ∧
    normalizeIsoString c = tripleOfEpochSeconds t := by
  refine ⟨?_, ?_, ?_⟩
  · rw [normalizeEpochNumber, if_pos hs]
  · rw [normalizeEpochNumber, if_neg (not_lt.mpr hms)]
    congr 1
    exact Int.mul_ediv_cancel_left t (by norm_num)
  · rw [normalizeIsoString, hc]

/-- Witness for C3 (amended) at the instant 2023-11-14T22:13:20Z: seconds,
milliseconds and ISO components agree on the JST triple. -/
theorem timestamp_round_trip_witness :
    normalizeEpochNumber 1700000000 = tripleOfEpochSeconds 1700000000 ∧
    normalizeEpochNumber (1000 * 1700000000) = tripleOfEpochSeconds 1700000000 ∧
    normalizeIsoString ⟨2023, 11, 14, 22, 13, 20⟩ = tripleOfEpochSeconds 1700000000 :=
  timestamp_round_trip 1700000000 ⟨2023, 11, 14, 22, 13, 20⟩
    (by decide) (by decide) (by decide)

/-- Counterexample for C3 as stated: the instant one day after the epoch.
Its epoch-seconds value 86400 normalizes to 1970-01-02 JST, but its
epoch-milliseconds value 86400000 lies below the 1e11 threshold, is
misread as seconds, and normalizes to 1972-09-27 JST. -/
theorem timestamp_small_epoch_cex :
    normalizeEpochNumber 86400 = ⟨1970, 1, 2, 9, "Friday"⟩ ∧
    normalizeEpochNumber 86400000 = ⟨1972, 9, 27, 9, "Wednesday"⟩ ∧
    (⟨1970, 1, 2, 9, "Friday"⟩ : DateTriple) ≠ ⟨1972, 9, 27, 9, "Wednesday"⟩ :=
  ⟨by decide, by decide, by decide⟩
